import Mathlib

/-!
Shallow embedding of the purchase/access core of `bot.py`
(FinanceAcademyTJ storefront bot): the JSON record store, the user
repository, the purchase ledger and the operator approve/deny commands.

JSON values are modelled by the inductive `J`; Python dicts are
association lists (`Dict`), with `dictSet` mirroring `d[k] = v`,
`dictGetD` mirroring `d.get(k, default)` and `dictUpdate` mirroring
`d.update(patch)`.  The persisted store (the parsed content of
`users.json`) is passed explicitly to every function; a function that
writes returns the new store.  `time.time()` is passed explicitly as a
`now : Int` argument.
-/

namespace FABot

/-- A JSON value as produced by `json.loads` / consumed by `json.dump`:
`null`, a string, an integer, or an object.  (Arrays, floats and booleans
never occur in the records this program writes and play no role in the
claims; an object covers every shape the store functions inspect with
`isinstance(-, dict)`.) -/
inductive J where
  | null : J
  | str : String → J
  | int : Int → J
  | obj : List (String × J) → J

/-- A Python dict with string keys, as an association list (keys unique
in every dict the program builds; lookups read the first binding). -/
abbrev Dict := List (String × J)

/-- The parsed content of the `users.json` store: user id (as decimal
string) → record object. -/
abbrev Store := Dict

/-- Python `d.get(k)`: the first binding of `k`, if any. -/
def dictGet? : Dict → String → Option J
  | [], _ => none
  | (k', v) :: rest, k => if k = k' then some v else dictGet? rest k

/-- Python `d[k] = v`: replace the first binding of `k` in place, or
append a new binding at the end. -/
def dictSet : Dict → String → J → Dict
  | [], k, v => [(k, v)]
  | (k', v') :: rest, k, v =>
    if k' = k then (k, v) :: rest else (k', v') :: dictSet rest k v

/-- Python `d.get(k, default)`. -/
def dictGetD (d : Dict) (k : String) (default : J) : J :=
  match dictGet? d k with
  | some w => w
  | none => default

/-- Python `d.update(patch)`: each binding of `patch`, in order,
overwrites the binding of its key. -/
def dictUpdate (d : Dict) (patch : Dict) : Dict :=
  patch.foldl (fun acc kv => dictSet acc kv.1 kv.2) d

mutual

/-- Python `repr` of a `J` value (`repr` of a dict lists its items in
insertion order). -/
def pyRepr : J → String
  | .null => "None"
  | .str s => "'" ++ s ++ "'"
  | .int n => toString n
  | .obj kvs => "\x7b" ++ pyReprFields kvs ++ "\x7d"

/-- `repr` of the items of a dict, comma-separated. -/
def pyReprFields : List (String × J) → String
  | [] => ""
  | [kv] => "'" ++ kv.1 ++ "': " ++ pyRepr kv.2
  | kv :: rest => "'" ++ kv.1 ++ "': " ++ pyRepr kv.2 ++ ", " ++ pyReprFields rest

end

/-- Python `str(v)`: a string is itself, anything else renders as its
`repr` (for `None`, ints and dicts alike). -/
def pyStr : J → String
  | .str s => s
  | v => pyRepr v

/-- The ASCII whitespace Python `str.strip()` removes (the inputs this
program strips are ASCII). -/
def pyIsSpace (c : Char) : Bool :=
  c == ' ' || c == '\t' || c == '\n' || c == '\r' || c == '\x0b' || c == '\x0c'

/-- Python `s.strip()`: drop leading and trailing whitespace. -/
def pyStrip (s : String) : String :=
  ⟨((s.data.dropWhile pyIsSpace).reverse.dropWhile pyIsSpace).reverse⟩

/-- Python `s.lower()` on the ASCII range. -/
def pyLowerChar (c : Char) : Char :=
  if 'A' ≤ c && c ≤ 'Z' then Char.ofNat (c.toNat + 32) else c

/-- Python `s.lower()` (the inputs this program lowers are ASCII). -/
def pyLower (s : String) : String :=
  ⟨s.data.map pyLowerChar⟩

/-- Python `s.upper()` on the ASCII range. -/
def pyUpperChar (c : Char) : Char :=
  if 'a' ≤ c && c ≤ 'z' then Char.ofNat (c.toNat - 32) else c

/-- Python `s.upper()` (the inputs this program uppercases are ASCII). -/
def pyUpper (s : String) : String :=
  ⟨s.data.map pyUpperChar⟩

/-- The supported locales, `SUPPORTED_LANGS = ("ru", "tj")`. -/
def SUPPORTED_LANGS : List String := ["ru", "tj"]

/-- `DEFAULT_LANG = "ru"`. -/
def DEFAULT_LANG : String := "ru"

/-- The keys of the `PRICES` table: the closed plan set. -/
def PLANS : List String := ["BASIC", "PRO", "VIP"]

/-- `get_user`: `users.get(str(uid), {})`, coerced to `{}` when the
stored value is not a dict. -/
def get_user (users : Store) (uid : Int) : Dict :=
  match dictGet? users (toString uid) with
  | some (J.obj u) => u
  | _ => []

/-- `upsert_user`: read the current record (coerced to `{}` when absent
or not a dict), `cur.update(patch)`, store it back under `str(uid)`.
The write goes through `_safe_write_json`; the mapping it persists is
the returned store. -/
def upsert_user (users : Store) (uid : Int) (patch : Dict) : Store :=
  let key := toString uid
  let cur := match dictGet? users key with
    | some (J.obj u) => u
    | _ => []
  dictSet users key (J.obj (dictUpdate cur patch))

/-- `set_purchase_status`: force-overwrite the entry for `(uid, plan)`
with `{"status": status, "ts": int(time.time())}` and persist through
`upsert_user`. -/
def set_purchase_status (users : Store) (uid : Int) (plan status : String) (now : Int) : Store :=
  let u := get_user users uid
  let purchases := match dictGetD u "purchases" (J.obj []) with
    | J.obj ps => ps
    | _ => []
  let purchases := dictSet purchases plan (J.obj [("status", J.str status), ("ts", J.int now)])
  upsert_user users uid [("purchases", J.obj purchases)]

/-- `get_purchase_status`: `str(purchases.get(plan, {}).get("status", "none"))`
with a dict-shape check at each level; "none" for every malformed shape. -/
def get_purchase_status (users : Store) (uid : Int) (plan : String) : String :=
  let u := get_user users uid
  match dictGetD u "purchases" (J.obj []) with
  | J.obj purchases =>
    match dictGetD purchases plan (J.obj []) with
    | J.obj p => pyStr (dictGetD p "status" (J.str "none"))
    | _ => "none"
  | _ => "none"

/-- `isinstance(p, dict) and p.get("status") == "approved"` for an entry
`p = purchases.get(plan)` (`none` models Python `None` for an absent key;
comparing a non-string value with `"approved"` is `False`). -/
def entryApprovedOf : Option J → Bool
  | some (J.obj p) =>
    match dictGet? p "status" with
    | some (J.str s) => s == "approved"
    | _ => false
  | _ => false

/-- The loop body shared by `user_has_access` and `get_approved_plan`:
the approval test applied to `purchases.get(plan)`. -/
def planApprovedIn (purchases : Dict) (plan : String) : Bool :=
  entryApprovedOf (dictGet? purchases plan)

/-- `user_has_access`: true iff one of BASIC, PRO, VIP has an
object-shaped entry with status `"approved"`. -/
def user_has_access (users : Store) (uid : Int) : Bool :=
  let u := get_user users uid
  match dictGetD u "purchases" (J.obj []) with
  | J.obj purchases => ["BASIC", "PRO", "VIP"].any (planApprovedIn purchases)
  | _ => false

/-- `get_approved_plan`: the first approved plan in the scan order
VIP, PRO, BASIC — the fixed precedence order. -/
def get_approved_plan (users : Store) (uid : Int) : Option String :=
  let u := get_user users uid
  match dictGetD u "purchases" (J.obj []) with
  | J.obj purchases => ["VIP", "PRO", "BASIC"].find? (planApprovedIn purchases)
  | _ => none

/-- Python `(u.get("lang") or "")` followed by `.strip().lower()`:
`or` replaces a falsy value (absent key, `None`, `""`, `0`, `{}`) by
`""`; a truthy non-string value would make `.strip()` raise
`AttributeError`, modelled as `none`. -/
def langOrEmpty (u : Dict) : Option String :=
  match dictGet? u "lang" with
  | none => some ""
  | some J.null => some ""
  | some (J.str s) => some s
  | some (J.int n) => if n = 0 then some "" else none
  | some (J.obj kvs) => if kvs.isEmpty then some "" else none

/-- `get_lang`: normalize the stored value and fall back to
`DEFAULT_LANG` when it is not in `SUPPORTED_LANGS`.  `none` models the
`AttributeError` a truthy non-string stored value would raise. -/
def get_lang (users : Store) (uid : Int) : Option String :=
  (langOrEmpty (get_user users uid)).map fun raw =>
    let lang := pyLower (pyStrip raw)
    if SUPPORTED_LANGS.contains lang then lang else DEFAULT_LANG

/-- `set_lang`: normalize the input, coerce an unsupported locale to
`DEFAULT_LANG`, and persist it together with `lang_ts`. -/
def set_lang (users : Store) (uid : Int) (lang : String) (now : Int) : Store :=
  let l := pyLower (pyStrip lang)
  let l := if SUPPORTED_LANGS.contains l then l else DEFAULT_LANG
  upsert_user users uid [("lang", J.str l), ("lang_ts", J.int now)]

/-- The configuration read once at startup; `ADMIN_ID` is the raw
environment string (`""` when unset). -/
structure Config where
  ADMIN_ID : String

/-- `is_admin`: everyone when `ADMIN_ID` is unset, else the caller whose
decimal id equals `ADMIN_ID`. -/
def is_admin (cfg : Config) (uid : Int) : Bool :=
  if cfg.ADMIN_ID = "" then true else toString uid == cfg.ADMIN_ID

/-- The digit part accepted by Python `int(...)` after the optional
sign: digits with single `_` group separators between digits. -/
def pyDigitRest : List Char → Bool
  | [] => true
  | '_' :: rest =>
    match rest with
    | c :: rest' => c.isDigit && pyDigitRest rest'
    | [] => false
  | c :: rest => c.isDigit && pyDigitRest rest

/-- A nonempty digit run (with separators) starting with a digit. -/
def pyDigitRun : List Char → Bool
  | [] => false
  | c :: rest => c.isDigit && pyDigitRest rest

/-- The numeric value of a digit run, separators removed. -/
def digitsValue (cs : List Char) : Nat :=
  cs.foldl (fun acc c => acc * 10 + (c.toNat - '0'.toNat)) 0

/-- Python `int(s)`: strip whitespace, optional sign, digit run;
`none` models the `ValueError` branch of the caller. -/
def pyInt (s : String) : Option Int :=
  match (pyStrip s).toList with
  | '+' :: rest =>
    if pyDigitRun rest then some (Int.ofNat (digitsValue (rest.filter (· != '_')))) else none
  | '-' :: rest =>
    if pyDigitRun rest then some (-(Int.ofNat (digitsValue (rest.filter (· != '_'))))) else none
  | cs =>
    if pyDigitRun cs then some (Int.ofNat (digitsValue (cs.filter (· != '_')))) else none

/-- The reply `cmd_approve` / `cmd_deny` send back to the caller. -/
inductive Reply where
  | noAccess : Reply
  | usage : Reply
  | badPlan : Reply
  | badUserId : Reply
  | approvedMsg : Int → String → Reply
  | deniedMsg : Int → String → Reply

/-- `cmd_approve`: admin check, then `len(args) < 2` check, then the
plan is uppercased and checked against `PRICES`, then `int(args[0])`;
on success the status is force-set to `"approved"`. -/
def cmd_approve (cfg : Config) (users : Store) (caller : Int) (args : List String) (now : Int) :
    Store × Reply :=
  if !(is_admin cfg caller) then (users, .noAccess)
  else match args with
    | uid_str :: planArg :: _ =>
      let plan := pyUpper planArg
      if !(PLANS.contains plan) then (users, .badPlan)
      else match pyInt uid_str with
        | none => (users, .badUserId)
        | some uid => (set_purchase_status users uid plan "approved" now, .approvedMsg uid plan)
    | _ => (users, .usage)

/-- `cmd_deny`: same checks as `cmd_approve`; on success the status is
force-set to `"denied"`. -/
def cmd_deny (cfg : Config) (users : Store) (caller : Int) (args : List String) (now : Int) :
    Store × Reply :=
  if !(is_admin cfg caller) then (users, .noAccess)
  else match args with
    | uid_str :: planArg :: _ =>
      let plan := pyUpper planArg
      if !(PLANS.contains plan) then (users, .badPlan)
      else match pyInt uid_str with
        | none => (users, .badUserId)
        | some uid => (set_purchase_status users uid plan "denied" now, .deniedMsg uid plan)
    | _ => (users, .usage)

/-- The `paid:` branch of `on_callback`: the payload after the colon is
uppercased and checked against `PRICES`; a valid plan is force-set to
`"requested"` for the pressing user. -/
def on_paid_callback (users : Store) (uid : Int) (payload : String) (now : Int) : Store :=
  let plan := pyUpper payload
  if !(PLANS.contains plan) then users
  else set_purchase_status users uid plan "requested" now

/-- One ledger-mutating operation: a user pressing "I paid", or the
operator commands `/approve` and `/deny`. -/
inductive Op where
  | paid : Int → String → Op
  | approve : Int → List String → Op
  | deny : Int → List String → Op

/-- The store after one operation (the reply is discarded). -/
def applyOp (cfg : Config) (users : Store) : Op × Int → Store
  | (.paid uid payload, now) => on_paid_callback users uid payload now
  | (.approve caller args, now) => (cmd_approve cfg users caller args now).1
  | (.deny caller args, now) => (cmd_deny cfg users caller args now).1

/-- The store after a sequence of operations, each with its own
timestamp. -/
def runOps (cfg : Config) (users : Store) (ops : List (Op × Int)) : Store :=
  ops.foldl (applyOp cfg) users

/-- The status each operation force-sets when it touches an entry:
"I paid" writes `requested`, approve writes `approved`, deny writes
`denied`. -/
def opTarget : Op → String
  | .paid _ _ => "requested"
  | .approve _ _ => "approved"
  | .deny _ _ => "denied"

/-- The `purchases` mapping of a user's record, coerced to `{}` when the
field is absent or not a dict — the shared first step of
`set_purchase_status`, `get_purchase_status`, `user_has_access` and
`get_approved_plan`. -/
def purchasesOf (users : Store) (uid : Int) : Dict :=
  match dictGetD (get_user users uid) "purchases" (J.obj []) with
  | J.obj ps => ps
  | _ => []

/-- The status `get_purchase_status` reports for an entry looked up in
the purchases mapping (absent ≡ `{}` ≡ no `status` field ≡ `"none"`). -/
def entryStatusOf : Option J → String
  | some (J.obj p) => pyStr (dictGetD p "status" (J.str "none"))
  | some _ => "none"
  | none => "none"

/-- The `ts` timestamp `set_purchase_status` stamps, read back from the
stored entry for `(uid, plan)`; `none` when the entry is absent,
malformed, or carries no integer `ts`. -/
def purchaseTs (users : Store) (uid : Int) (plan : String) : Option Int :=
  match dictGet? (purchasesOf users uid) plan with
  | some (J.obj p) =>
    match dictGet? p "ts" with
    | some (J.int n) => some n
    | _ => none
  | _ => none

/-- Whether the stored entry for `(uid, plan)` is an object with status
`"approved"` — the condition the access loops test. -/
def planApprovedNow (users : Store) (uid : Int) (plan : String) : Bool :=
  planApprovedIn (purchasesOf users uid) plan

/-- The fixed plan precedence VIP > PRO > BASIC: the scan order of
`get_approved_plan`. -/
def planPrec : String → Nat
  | "VIP" => 3
  | "PRO" => 2
  | "BASIC" => 1
  | _ => 0

/-- The transition edges the spec's invariant permits for
`purchases[plan].status`: `none→requested`, `requested→approved`,
`requested→denied`, `denied→requested`, `approved→requested`. -/
def specAllowedEdge (src dst : String) : Bool :=
  (src == "none" && dst == "requested") ||
  (src == "requested" && dst == "approved") ||
  (src == "requested" && dst == "denied") ||
  (src == "denied" && dst == "requested") ||
  (src == "approved" && dst == "requested")

/-- The locale `set_lang` persists for input `lang`: the stripped,
lowercased input when supported, else `DEFAULT_LANG`. -/
def coercedLang (lang : String) : String :=
  if SUPPORTED_LANGS.contains (pyLower (pyStrip lang)) then pyLower (pyStrip lang)
  else DEFAULT_LANG

/-- `get_user` as a store transaction: the returned record together with
the persisted store after the call.  The source performs a single
`_safe_read_json` and no write, so the store is returned unchanged. -/
def get_user_run (users : Store) (uid : Int) : Dict × Store :=
  (get_user users uid, users)

/-- What reading the backing file can yield: the file is missing, the
read raises (unreadable file), or it yields the file's text. -/
inductive FileRead where
  | missing : FileRead
  | ioError : FileRead
  | content : String → FileRead

/-- `_safe_read_json`, with the external `json.loads` supplied as an
oracle `loads` (`none` models a raised `JSONDecodeError`).  Every
failure path — missing file, raised read, blank content, parse error,
non-dict JSON — yields `{}`; nothing propagates. -/
def safe_read_json (loads : String → Option J) (file : FileRead) : Dict :=
  match file with
  | .missing => []
  | .ioError => []
  | .content s =>
    let raw := pyStrip s
    if raw = "" then []
    else match loads raw with
      | none => []
      | some (J.obj kvs) => kvs
      | some _ => []

/-- The two files `_safe_write_json` touches: the destination `path` and
the staging file `path + ".tmp"` (`none` = the file does not exist). -/
structure FS where
  main : Option String
  tmp : Option String

/-- `open(tmp, "w")`: create or truncate the staging file. -/
def openTmpStep (fs : FS) : FS :=
  { fs with tmp := some "" }

/-- One buffered write of `json.dump` appending a chunk of the
serialized text to the staging file. -/
def writeChunkStep (c : String) (fs : FS) : FS :=
  { fs with tmp := fs.tmp.map (· ++ c) }

/-- `os.replace(tmp, path)`: atomically install the staged content as
the new file (a missing staging file would raise, leaving both files
unchanged). -/
def replaceStep (fs : FS) : FS :=
  match fs.tmp with
  | some c => { main := some c, tmp := none }
  | none => fs

/-- The micro-steps `_safe_write_json` performs against the file system,
for a serialization written in the given chunks: truncate the staging
file, append each chunk, then one atomic replace. -/
def writeSteps (chunks : List String) : List (FS → FS) :=
  openTmpStep :: (chunks.map writeChunkStep ++ [replaceStep])

/-- The file system after a crash that interrupts `_safe_write_json`
once `k` of its micro-steps have completed. -/
def crashAt (chunks : List String) (fs : FS) (k : Nat) : FS :=
  ((writeSteps chunks).take k).foldl (fun st f => f st) fs

/-- The complete serialized text: the concatenation of the chunks. -/
def concatChunks : List String → String
  | [] => ""
  | c :: rest => c ++ concatChunks rest




theorem dictGet?_dictSet (d : Dict) (k k' : String) (v : J) :
    dictGet? (dictSet d k v) k' = if k' = k then some v else dictGet? d k' := by
  induction d with
  | nil => by_cases h : k' = k <;> simp [dictSet, dictGet?, h]
  | cons kv rest ih =>
    obtain ⟨k₀, v₀⟩ := kv
    by_cases h : k₀ = k <;> by_cases h' : k' = k₀ <;> by_cases h'' : k' = k <;>
      simp_all [dictSet, dictGet?]

theorem get_purchase_status_view (s : Store) (u : Int) (P : String) :
    get_purchase_status s u P = entryStatusOf (dictGet? (purchasesOf s u) P) := by
  unfold get_purchase_status purchasesOf
  dsimp only
  cases hv : dictGetD (get_user s u) "purchases" (J.obj []) with
  | obj ps =>
    cases hp : dictGet? ps P with
    | none => simp [dictGetD, hp, entryStatusOf, pyStr, pyRepr, dictGet?]
    | some w => cases w <;> simp [dictGetD, hp, entryStatusOf]
  | null => simp [entryStatusOf, dictGet?]
  | str a => simp [entryStatusOf, dictGet?]
  | int n => simp [entryStatusOf, dictGet?]

theorem user_has_access_view (s : Store) (u : Int) :
    user_has_access s u = ["BASIC", "PRO", "VIP"].any (planApprovedIn (purchasesOf s u)) := by
  unfold user_has_access purchasesOf
  cases hv : dictGetD (get_user s u) "purchases" (J.obj []) <;>
    simp [hv, planApprovedIn, entryApprovedOf, dictGet?]

theorem get_approved_plan_view (s : Store) (u : Int) :
    get_approved_plan s u = ["VIP", "PRO", "BASIC"].find? (planApprovedIn (purchasesOf s u)) := by
  unfold get_approved_plan purchasesOf
  cases hv : dictGetD (get_user s u) "purchases" (J.obj []) <;>
    simp [hv, planApprovedIn, entryApprovedOf, dictGet?, List.find?]

theorem purchasesOf_set (s : Store) (u : Int) (P st : String) (now : Int) (u' : Int) :
    purchasesOf (set_purchase_status s u P st now) u' =
      if toString u' = toString u
      then dictSet (purchasesOf s u) P (J.obj [("status", J.str st), ("ts", J.int now)])
      else purchasesOf s u' := by
  by_cases h : toString u' = toString u
  · simp only [h, if_pos]
    unfold purchasesOf get_user set_purchase_status upsert_user
    simp only [dictGet?_dictSet, h, if_pos, dictUpdate, List.foldl]
    simp [dictGetD, dictGet?_dictSet, purchasesOf, get_user]
  · simp only [h, if_neg, ite_false]
    unfold purchasesOf get_user set_purchase_status upsert_user
    simp only [dictGet?_dictSet, h, ite_false, dictUpdate, List.foldl]



theorem purchasesOf_congr (s : Store) (u u' : Int) (h : toString u' = toString u) :
    purchasesOf s u' = purchasesOf s u := by
  unfold purchasesOf get_user
  rw [h]

theorem entryStatusOf_entry (st : String) (now : Int) :
    entryStatusOf (some (J.obj [("status", J.str st), ("ts", J.int now)])) = st := rfl

theorem entryApprovedOf_entry (st : String) (now : Int) :
    entryApprovedOf (some (J.obj [("status", J.str st), ("ts", J.int now)])) = (st == "approved") := rfl

theorem planApprovedIn_dictSet (ps : Dict) (P P' : String) (e : J) :
    planApprovedIn (dictSet ps P e) P' =
      if P' = P then entryApprovedOf (some e) else planApprovedIn ps P' := by
  unfold planApprovedIn
  rw [dictGet?_dictSet]
  by_cases h : P' = P <;> simp [h]

theorem set_purchase_effect (s : Store) (u : Int) (P st : String) (now : Int)
    (u' : Int) (P' : String) :
    (get_purchase_status (set_purchase_status s u P st now) u' P' = get_purchase_status s u' P' ∧
      purchaseTs (set_purchase_status s u P st now) u' P' = purchaseTs s u' P') ∨
    (get_purchase_status (set_purchase_status s u P st now) u' P' = st ∧
      purchaseTs (set_purchase_status s u P st now) u' P' = some now) := by
  by_cases hk : toString u' = toString u
  · by_cases hp : P' = P
    · right
      constructor
      · rw [get_purchase_status_view, purchasesOf_set, if_pos hk, dictGet?_dictSet, if_pos hp]
        exact entryStatusOf_entry st now
      · unfold purchaseTs
        rw [purchasesOf_set, if_pos hk, dictGet?_dictSet, if_pos hp]
        simp [dictGet?]
    · left
      constructor
      · rw [get_purchase_status_view, get_purchase_status_view, purchasesOf_set, if_pos hk,
          dictGet?_dictSet, if_neg hp, purchasesOf_congr s u u' hk]
      · unfold purchaseTs
        rw [purchasesOf_set, if_pos hk, dictGet?_dictSet, if_neg hp, purchasesOf_congr s u u' hk]
  · left
    constructor
    · rw [get_purchase_status_view, get_purchase_status_view, purchasesOf_set, if_neg hk]
    · unfold purchaseTs
      rw [purchasesOf_set, if_neg hk]

theorem cmd_approve_ok (cfg : Config) (users : Store) (caller : Int) (args : List String)
    (now : Int) (s' : Store) (u : Int) (P : String)
    (h : cmd_approve cfg users caller args now = (s', Reply.approvedMsg u P)) :
    is_admin cfg caller = true ∧ P ∈ PLANS ∧
      s' = set_purchase_status users u P "approved" now := by
  unfold cmd_approve at h
  cases ha : is_admin cfg caller
  · simp [ha] at h
  · cases args with
    | nil => simp [ha] at h
    | cons a t =>
      cases t with
      | nil => simp [ha] at h
      | cons b rest =>
        by_cases hc : pyUpper b ∈ PLANS
        · cases hi : pyInt a with
          | none => simp [ha, hc, hi] at h
          | some uid =>
            simp [ha, hc, hi] at h
            obtain ⟨h1, h2, h3⟩ := h
            subst h2
            subst h3
            exact ⟨rfl, hc, h1.symm⟩
        · simp [ha, hc] at h

theorem cmd_deny_ok (cfg : Config) (users : Store) (caller : Int) (args : List String)
    (now : Int) (s' : Store) (u : Int) (P : String)
    (h : cmd_deny cfg users caller args now = (s', Reply.deniedMsg u P)) :
    is_admin cfg caller = true ∧ P ∈ PLANS ∧
      s' = set_purchase_status users u P "denied" now := by
  unfold cmd_deny at h
  cases ha : is_admin cfg caller
  · simp [ha] at h
  · cases args with
    | nil => simp [ha] at h
    | cons a t =>
      cases t with
      | nil => simp [ha] at h
      | cons b rest =>
        by_cases hc : pyUpper b ∈ PLANS
        · cases hi : pyInt a with
          | none => simp [ha, hc, hi] at h
          | some uid =>
            simp [ha, hc, hi] at h
            obtain ⟨h1, h2, h3⟩ := h
            subst h2
            subst h3
            exact ⟨rfl, hc, h1.symm⟩
        · simp [ha, hc] at h

theorem cmd_approve_fst (cfg : Config) (users : Store) (caller : Int) (args : List String)
    (now : Int) :
    (cmd_approve cfg users caller args now).1 = users ∨
    ∃ uid plan, (cmd_approve cfg users caller args now).1 =
      set_purchase_status users uid plan "approved" now := by
  unfold cmd_approve
  cases ha : is_admin cfg caller
  · left; simp [ha]
  · cases args with
    | nil => left; simp [ha]
    | cons a t =>
      cases t with
      | nil => left; simp [ha]
      | cons b rest =>
        by_cases hc : pyUpper b ∈ PLANS
        · cases hi : pyInt a with
          | none => left; simp [ha, hc, hi]
          | some uid => right; exact ⟨uid, pyUpper b, by simp [ha, hc, hi]⟩
        · left; simp [ha, hc]

theorem cmd_deny_fst (cfg : Config) (users : Store) (caller : Int) (args : List String)
    (now : Int) :
    (cmd_deny cfg users caller args now).1 = users ∨
    ∃ uid plan, (cmd_deny cfg users caller args now).1 =
      set_purchase_status users uid plan "denied" now := by
  unfold cmd_deny
  cases ha : is_admin cfg caller
  · left; simp [ha]
  · cases args with
    | nil => left; simp [ha]
    | cons a t =>
      cases t with
      | nil => left; simp [ha]
      | cons b rest =>
        by_cases hc : pyUpper b ∈ PLANS
        · cases hi : pyInt a with
          | none => left; simp [ha, hc, hi]
          | some uid => right; exact ⟨uid, pyUpper b, by simp [ha, hc, hi]⟩
        · left; simp [ha, hc]

theorem on_paid_fst (users : Store) (uid : Int) (payload : String) (now : Int) :
    on_paid_callback users uid payload now = users ∨
    ∃ plan, on_paid_callback users uid payload now =
      set_purchase_status users uid plan "requested" now := by
  unfold on_paid_callback
  by_cases hc : pyUpper payload ∈ PLANS
  · right; exact ⟨pyUpper payload, by simp [hc]⟩
  · left; simp [hc]



theorem entryApprovedOf_eq_true (e : Option J) :
    entryApprovedOf e = true ↔
      ∃ p, e = some (J.obj p) ∧ dictGet? p "status" = some (J.str "approved") := by
  cases e with
  | none => simp [entryApprovedOf]
  | some v =>
    cases v with
    | obj p =>
      cases hs : dictGet? p "status" with
      | none => simp [entryApprovedOf, hs]
      | some w =>
        cases w with
        | str a => simp [entryApprovedOf, hs]
        | null => simp [entryApprovedOf, hs]
        | int n => simp [entryApprovedOf, hs]
        | obj kvs => simp [entryApprovedOf, hs]
    | null => simp [entryApprovedOf]
    | str a => simp [entryApprovedOf]
    | int n => simp [entryApprovedOf]

/-- Claim C1 (amended): under any single ledger operation — a user "I paid"
press, an operator `/approve`, an operator `/deny` — the stored entry for a
pair `(u, P)` either keeps exactly its previous status and timestamp, or is
force-set to that operation's specific target status (`opTarget`:
`requested` for "I paid", `approved` for approve, `denied` for deny)
regardless of the prior status, with its `ts` re-stamped to the operation's
time. -/
theorem purchase_status_step (cfg : Config) (s : Store) (op : Op) (now : Int)
    (u : Int) (P : String) :
    (get_purchase_status (applyOp cfg s (op, now)) u P = get_purchase_status s u P ∧
      purchaseTs (applyOp cfg s (op, now)) u P = purchaseTs s u P) ∨
    (get_purchase_status (applyOp cfg s (op, now)) u P = opTarget op ∧
      purchaseTs (applyOp cfg s (op, now)) u P = some now) := by
  cases op with
  | paid uid payload =>
    have happ : applyOp cfg s (Op.paid uid payload, now) = on_paid_callback s uid payload now := rfl
    rw [happ]
    rcases on_paid_fst s uid payload now with h | ⟨plan, h⟩
    · rw [h]; left; exact ⟨rfl, rfl⟩
    · rw [h]
      rcases set_purchase_effect s uid plan "requested" now u P with ⟨h1, h2⟩ | ⟨h1, h2⟩
      · left; exact ⟨h1, h2⟩
      · right; exact ⟨h1, h2⟩
  | approve caller args =>
    have happ : applyOp cfg s (Op.approve caller args, now) = (cmd_approve cfg s caller args now).1 := rfl
    rw [happ]
    rcases cmd_approve_fst cfg s caller args now with h | ⟨uid, plan, h⟩
    · rw [h]; left; exact ⟨rfl, rfl⟩
    · rw [h]
      rcases set_purchase_effect s uid plan "approved" now u P with ⟨h1, h2⟩ | ⟨h1, h2⟩
      · left; exact ⟨h1, h2⟩
      · right; exact ⟨h1, h2⟩
  | deny caller args =>
    have happ : applyOp cfg s (Op.deny caller args, now) = (cmd_deny cfg s caller args now).1 := rfl
    rw [happ]
    rcases cmd_deny_fst cfg s caller args now with h | ⟨uid, plan, h⟩
    · rw [h]; left; exact ⟨rfl, rfl⟩
    · rw [h]
      rcases set_purchase_effect s uid plan "denied" now u P with ⟨h1, h2⟩ | ⟨h1, h2⟩
      · left; exact ⟨h1, h2⟩
      · right; exact ⟨h1, h2⟩

/-- Claim C1 as stated is false on the code: starting from the empty store
(status `none` for `(7, BASIC)`), the single authorized operator command
`/approve 7 BASIC` moves the status directly to `approved` — an edge the
claimed transition graph (`specAllowedEdge`) does not contain. -/
theorem approve_skips_requested :
    get_purchase_status ([] : Store) 7 "BASIC" = "none" ∧
    get_purchase_status (applyOp ⟨"1"⟩ ([] : Store) (Op.approve 1 ["7", "BASIC"], 5)) 7 "BASIC"
      = "approved" ∧
    specAllowedEdge "none" "approved" = false :=
  ⟨rfl, rfl, rfl⟩

/-- Claim C3: for every store and user, `user_has_access` is true iff some
plan entry of the user's record has status approved, equivalently iff
`get_approved_plan` returns a plan rather than none. -/
theorem has_access_iff (s : Store) (u : Int) :
    (user_has_access s u = true ↔ ∃ P ∈ PLANS, planApprovedNow s u P = true) ∧
    user_has_access s u = (get_approved_plan s u).isSome := by
  constructor
  · rw [user_has_access_view, List.any_eq_true]
    simp only [planApprovedNow, PLANS]
  · rw [user_has_access_view, get_approved_plan_view]
    cases hB : planApprovedIn (purchasesOf s u) "BASIC" <;>
      cases hP : planApprovedIn (purchasesOf s u) "PRO" <;>
        cases hV : planApprovedIn (purchasesOf s u) "VIP" <;>
          simp [List.any, List.find?, hB, hP, hV]

/-- Claim C10: `user_has_access` and `get_approved_plan` consult only the
keys BASIC, PRO, VIP and only object-shaped entries: access implies an
object entry with status `"approved"` under one of those keys, and any plan
`get_approved_plan` returns is such a key with such an entry. -/
theorem access_needs_plan_object (s : Store) (u : Int) :
    (user_has_access s u = true →
      ∃ P, P ∈ PLANS ∧ ∃ p, dictGet? (purchasesOf s u) P = some (J.obj p) ∧
        dictGet? p "status" = some (J.str "approved")) ∧
    (∀ Q, get_approved_plan s u = some Q →
      Q ∈ PLANS ∧ ∃ p, dictGet? (purchasesOf s u) Q = some (J.obj p) ∧
        dictGet? p "status" = some (J.str "approved")) := by
  constructor
  · intro h
    rw [user_has_access_view, List.any_eq_true] at h
    obtain ⟨P, hmem, hap⟩ := h
    refine ⟨P, by simpa [PLANS] using hmem, ?_⟩
    unfold planApprovedIn at hap
    exact (entryApprovedOf_eq_true _).1 hap
  · intro Q h
    rw [get_approved_plan_view] at h
    have hmem := List.mem_of_find?_eq_some h
    have hap := List.find?_some h
    refine ⟨?_, ?_⟩
    · have hq : Q = "VIP" ∨ Q = "PRO" ∨ Q = "BASIC" := by simpa using hmem
      rcases hq with rfl | rfl | rfl <;> simp [PLANS]
    · unfold planApprovedIn at hap
      exact (entryApprovedOf_eq_true _).1 hap

/-- Claim C8: `get_purchase_status` returns `"none"` (and never fails)
whenever the user's record is absent or not an object, the record's
`purchases` field is present but not a mapping, or the entry for the plan is
absent or not an object. -/
theorem get_status_defaults (s : Store) (u : Int) (P : String) :
    ((∀ r, dictGet? s (toString u) ≠ some (J.obj r)) → get_purchase_status s u P = "none") ∧
    (∀ w, dictGet? (get_user s u) "purchases" = some w → (∀ kvs, w ≠ J.obj kvs) →
      get_purchase_status s u P = "none") ∧
    (dictGet? (purchasesOf s u) P = none → get_purchase_status s u P = "none") ∧
    (∀ w, dictGet? (purchasesOf s u) P = some w → (∀ kvs, w ≠ J.obj kvs) →
      get_purchase_status s u P = "none") := by
  refine ⟨?_, ?_, ?_, ?_⟩
  · intro h
    have hu : get_user s u = [] := by
      unfold get_user
      cases hv : dictGet? s (toString u) with
      | none => rfl
      | some v =>
        cases v with
        | obj r => exact absurd hv (h r)
        | null => rfl
        | str a => rfl
        | int n => rfl
    rw [get_purchase_status_view]
    unfold purchasesOf
    rw [hu]
    rfl
  · intro w hw hnobj
    rw [get_purchase_status_view]
    unfold purchasesOf
    cases w with
    | obj kvs => exact absurd rfl (hnobj kvs)
    | null => simp [dictGetD, hw, entryStatusOf, dictGet?]
    | str a => simp [dictGetD, hw, entryStatusOf, dictGet?]
    | int n => simp [dictGetD, hw, entryStatusOf, dictGet?]
  · intro h
    rw [get_purchase_status_view, h]
    rfl
  · intro w hw hnobj
    rw [get_purchase_status_view, hw]
    cases w with
    | obj kvs => exact absurd rfl (hnobj kvs)
    | null => rfl
    | str a => rfl
    | int n => rfl

/-- Claim C9: `get_user` performs no write — the persisted store after the
call is the store it read — and returns the well-formed empty record for a
user id with no stored record, never failing. -/
theorem get_user_pure_default (s : Store) (u : Int) :
    (get_user_run s u).2 = s ∧
    (dictGet? s (toString u) = none → (get_user_run s u).1 = []) := by
  refine ⟨rfl, fun h => ?_⟩
  show get_user s u = []
  unfold get_user
  rw [h]

/-- Claim C7: `_safe_read_json` returns the empty mapping and never raises
when the backing file is missing, unreadable (the read raises), blank after
stripping, malformed JSON (`json.loads` raises), or well-formed JSON that is
not an object. -/
theorem safe_read_defaults (loads : String → Option J) (file : FileRead) :
    (file = .missing → safe_read_json loads file = []) ∧
    (file = .ioError → safe_read_json loads file = []) ∧
    (∀ s, file = .content s → pyStrip s = "" → safe_read_json loads file = []) ∧
    (∀ s, file = .content s → loads (pyStrip s) = none → safe_read_json loads file = []) ∧
    (∀ s v, file = .content s → loads (pyStrip s) = some v → (∀ kvs, v ≠ J.obj kvs) →
      safe_read_json loads file = []) := by
  refine ⟨fun h => by subst h; rfl, fun h => by subst h; rfl, ?_, ?_, ?_⟩
  · intro s hf he
    subst hf
    simp [safe_read_json, he]
  · intro s hf hl
    subst hf
    by_cases he : pyStrip s = "" <;> simp [safe_read_json, he, hl]
  · intro s v hf hl hnobj
    subst hf
    by_cases he : pyStrip s = ""
    · simp [safe_read_json, he]
    · cases v with
      | obj kvs => exact absurd rfl (hnobj kvs)
      | null => simp [safe_read_json, he, hl]
      | str a => simp [safe_read_json, he, hl]
      | int n => simp [safe_read_json, he, hl]



theorem main_foldl_chunkSteps (cs : List String) (fs : FS) :
    ((cs.map writeChunkStep).foldl (fun st f => f st) fs).main = fs.main := by
  induction cs generalizing fs with
  | nil => rfl
  | cons c rest ih => simpa [writeChunkStep] using ih (writeChunkStep c fs)

theorem tmp_foldl_chunkSteps (cs : List String) (fs : FS) (s0 : String) (h : fs.tmp = some s0) :
    ((cs.map writeChunkStep).foldl (fun st f => f st) fs).tmp =
      some (s0 ++ concatChunks cs) := by
  induction cs generalizing fs s0 with
  | nil => simpa [concatChunks] using h
  | cons c rest ih =>
    have hstep : (writeChunkStep c fs).tmp = some (s0 ++ c) := by simp [writeChunkStep, h]
    have := ih (writeChunkStep c fs) (s0 ++ c) hstep
    simpa [concatChunks, String.append_assoc] using this

/-- Claim C4: `_safe_write_json` stages the complete new content in the
`.tmp` file and installs it with one atomic replace: a crash after any
number `k` of its micro-steps leaves the destination file holding either
the old content or the complete new content, never a partial file. -/
theorem crash_leaves_old_or_new (chunks : List String) (fs : FS) (k : Nat) :
    (crashAt chunks fs k).main = fs.main ∨
    (crashAt chunks fs k).main = some (concatChunks chunks) := by
  unfold crashAt writeSteps
  by_cases hk : k ≤ 1 + chunks.length
  · left
    cases k with
    | zero => rfl
    | succ k' =>
      rw [List.take_succ_cons]
      have hlen : k' ≤ (chunks.map writeChunkStep).length := by
        rw [List.length_map]; omega
      rw [List.take_append_of_le_length hlen, ← List.map_take]
      show ((((chunks.take k').map writeChunkStep).foldl (fun st f => f st)
        (openTmpStep fs))).main = fs.main
      rw [main_foldl_chunkSteps]
      rfl
  · right
    have hlen : (openTmpStep :: (chunks.map writeChunkStep ++ [replaceStep])).length ≤ k := by
      simp [List.length_map]
      omega
    rw [List.take_of_length_le hlen]
    show (List.foldl (fun st f => f st) (openTmpStep fs)
      (chunks.map writeChunkStep ++ [replaceStep])).main = _
    rw [List.foldl_append]
    have htmp := tmp_foldl_chunkSteps chunks (openTmpStep fs) "" rfl
    rw [String.empty_append] at htmp
    show (replaceStep _).main = _
    rw [replaceStep, htmp]

theorem planApprovedNow_set (s : Store) (u : Int) (P st : String) (now : Int) (R : String) :
    planApprovedNow (set_purchase_status s u P st now) u R =
      if R = P then (st == "approved") else planApprovedNow s u R := by
  unfold planApprovedNow
  rw [purchasesOf_set, if_pos rfl, planApprovedIn_dictSet]
  by_cases h : R = P <;> simp [h, entryApprovedOf_entry]

theorem find?_precedence (f : String → Bool) (P : String) (hP : P ∈ PLANS) (hf : f P = true) :
    ∃ Q, ["VIP", "PRO", "BASIC"].find? f = some Q ∧ f Q = true ∧ planPrec P ≤ planPrec Q ∧
      ∀ R ∈ PLANS, f R = true → planPrec R ≤ planPrec Q := by
  have hP3 : P = "BASIC" ∨ P = "PRO" ∨ P = "VIP" := by simpa [PLANS] using hP
  cases hV : f "VIP" <;> cases hPr : f "PRO" <;> cases hB : f "BASIC" <;>
    rcases hP3 with rfl | rfl | rfl <;>
      simp_all [List.find?, PLANS, planPrec]



/-- Claim C2: after a successful authorized `approve(u, P)`, `P` is
approved and `get_approved_plan u` returns an approved plan of maximal
precedence (VIP > PRO > BASIC), of precedence at least that of `P`; after a
successful `deny(u, P)`, `user_has_access u` holds iff some plan other than
`P` is approved. -/
theorem approve_deny_transitions (cfg : Config) (users : Store) (caller : Int)
    (args : List String) (now : Int) (s' : Store) (u : Int) (P : String) :
    (cmd_approve cfg users caller args now = (s', Reply.approvedMsg u P) →
      planApprovedNow s' u P = true ∧
      ∃ Q, get_approved_plan s' u = some Q ∧ planApprovedNow s' u Q = true ∧
        planPrec P ≤ planPrec Q ∧
        ∀ R ∈ PLANS, planApprovedNow s' u R = true → planPrec R ≤ planPrec Q) ∧
    (cmd_deny cfg users caller args now = (s', Reply.deniedMsg u P) →
      (user_has_access s' u = true ↔
        ∃ R ∈ PLANS, R ≠ P ∧ planApprovedNow s' u R = true)) := by
  constructor
  · intro h
    obtain ⟨-, hP, hs⟩ := cmd_approve_ok cfg users caller args now s' u P h
    subst hs
    have happ : planApprovedNow (set_purchase_status users u P "approved" now) u P = true := by
      rw [planApprovedNow_set, if_pos rfl]
      rfl
    refine ⟨happ, ?_⟩
    have hfind := find?_precedence
      (planApprovedIn (purchasesOf (set_purchase_status users u P "approved" now) u)) P hP happ
    rw [get_approved_plan_view]
    exact hfind
  · intro h
    obtain ⟨-, hP, hs⟩ := cmd_deny_ok cfg users caller args now s' u P h
    subst hs
    rw [user_has_access_view, List.any_eq_true]
    constructor
    · rintro ⟨R, hmem, hR⟩
      by_cases hne : R = P
      · subst hne
        have hR' : planApprovedNow (set_purchase_status users u R "denied" now) u R = true := hR
        rw [planApprovedNow_set, if_pos rfl] at hR'
        simp at hR'
      · exact ⟨R, hmem, hne, hR⟩
    · rintro ⟨R, hmem, hne, hR⟩
      exact ⟨R, hmem, hR⟩

/-- Claim C5: `/approve` and `/deny` reply with a denial for a
non-operator caller and with a usage/validation message for missing
arguments, an unknown plan, or a non-numeric user id — leaving the store
unchanged in each case — and any change to the store implies the caller was
the operator and the arguments were well-formed. -/
theorem approve_deny_guarded (cfg : Config) (users : Store) (caller : Int)
    (args : List String) (now : Int) :
    (is_admin cfg caller = false →
      cmd_approve cfg users caller args now = (users, Reply.noAccess) ∧
      cmd_deny cfg users caller args now = (users, Reply.noAccess)) ∧
    (is_admin cfg caller = true → args.length < 2 →
      cmd_approve cfg users caller args now = (users, Reply.usage) ∧
      cmd_deny cfg users caller args now = (users, Reply.usage)) ∧
    (∀ a b rest, is_admin cfg caller = true → args = a :: b :: rest →
      pyUpper b ∉ PLANS →
      cmd_approve cfg users caller args now = (users, Reply.badPlan) ∧
      cmd_deny cfg users caller args now = (users, Reply.badPlan)) ∧
    (∀ a b rest, is_admin cfg caller = true → args = a :: b :: rest →
      pyUpper b ∈ PLANS → pyInt a = none →
      cmd_approve cfg users caller args now = (users, Reply.badUserId) ∧
      cmd_deny cfg users caller args now = (users, Reply.badUserId)) ∧
    ((cmd_approve cfg users caller args now).1 ≠ users →
      is_admin cfg caller = true ∧ ∃ a b rest uid, args = a :: b :: rest ∧
        pyUpper b ∈ PLANS ∧ pyInt a = some uid ∧
        cmd_approve cfg users caller args now =
          (set_purchase_status users uid (pyUpper b) "approved" now,
            Reply.approvedMsg uid (pyUpper b))) ∧
    ((cmd_deny cfg users caller args now).1 ≠ users →
      is_admin cfg caller = true ∧ ∃ a b rest uid, args = a :: b :: rest ∧
        pyUpper b ∈ PLANS ∧ pyInt a = some uid ∧
        cmd_deny cfg users caller args now =
          (set_purchase_status users uid (pyUpper b) "denied" now,
            Reply.deniedMsg uid (pyUpper b))) := by
  refine ⟨?_, ?_, ?_, ?_, ?_, ?_⟩
  · intro ha
    constructor <;> simp [cmd_approve, cmd_deny, ha]
  · intro ha hlen
    cases args with
    | nil => constructor <;> simp [cmd_approve, cmd_deny, ha]
    | cons a t =>
      cases t with
      | nil => constructor <;> simp [cmd_approve, cmd_deny, ha]
      | cons b rest => simp at hlen; omega
  · intro a b rest ha hargs hplan
    subst hargs
    constructor <;> simp [cmd_approve, cmd_deny, ha, hplan]
  · intro a b rest ha hargs hplan hint
    subst hargs
    constructor <;> simp [cmd_approve, cmd_deny, ha, hplan, hint]
  · intro hne
    cases ha : is_admin cfg caller
    · exact absurd (by simp [cmd_approve, ha]) hne
    · refine ⟨rfl, ?_⟩
      cases args with
      | nil => exact absurd (by simp [cmd_approve, ha]) hne
      | cons a t =>
        cases t with
        | nil => exact absurd (by simp [cmd_approve, ha]) hne
        | cons b rest =>
          by_cases hplan : pyUpper b ∈ PLANS
          · cases hint : pyInt a with
            | none => exact absurd (by simp [cmd_approve, ha, hplan, hint]) hne
            | some uid =>
              exact ⟨a, b, rest, uid, rfl, hplan, hint,
                by simp [cmd_approve, ha, hplan, hint]⟩
          · exact absurd (by simp [cmd_approve, ha, hplan]) hne
  · intro hne
    cases ha : is_admin cfg caller
    · exact absurd (by simp [cmd_deny, ha]) hne
    · refine ⟨rfl, ?_⟩
      cases args with
      | nil => exact absurd (by simp [cmd_deny, ha]) hne
      | cons a t =>
        cases t with
        | nil => exact absurd (by simp [cmd_deny, ha]) hne
        | cons b rest =>
          by_cases hplan : pyUpper b ∈ PLANS
          · cases hint : pyInt a with
            | none => exact absurd (by simp [cmd_deny, ha, hplan, hint]) hne
            | some uid =>
              exact ⟨a, b, rest, uid, rfl, hplan, hint,
                by simp [cmd_deny, ha, hplan, hint]⟩
          · exact absurd (by simp [cmd_deny, ha, hplan]) hne



theorem get_user_set_lang (s : Store) (u : Int) (L : String) (now : Int) :
    dictGet? (get_user (set_lang s u L now) u) "lang" = some (J.str (coercedLang L)) := by
  unfold set_lang upsert_user get_user
  rw [dictGet?_dictSet, if_pos rfl]
  show dictGet? (dictUpdate _ _) "lang" = _
  unfold dictUpdate
  show dictGet? (dictSet (dictSet _ "lang" _) "lang_ts" _) "lang" = _
  rw [dictGet?_dictSet, if_neg (by decide), dictGet?_dictSet, if_pos rfl]
  rfl

theorem coercedLang_cases (L : String) : coercedLang L = "ru" ∨ coercedLang L = "tj" := by
  unfold coercedLang
  by_cases h : SUPPORTED_LANGS.contains (pyLower (pyStrip L))
  · rw [if_pos h]
    simpa [SUPPORTED_LANGS] using h
  · rw [if_neg h]
    left
    rfl

theorem get_lang_set_lang (s : Store) (u : Int) (L : String) (now : Int) :
    get_lang (set_lang s u L now) u = some (coercedLang L) := by
  unfold get_lang langOrEmpty
  rw [get_user_set_lang]
  rcases coercedLang_cases L with hc | hc <;> rw [hc] <;> rfl

/-- Claim C6: `set_lang` never rejects — any input is coerced into the
supported set, with `"xx"` becoming the default, and the coerced value is
persisted explicitly in the record's `lang` field — and `get_lang` only
ever returns members of the supported set, falling back to the default when
the stored locale is absent, null, or an unsupported string. -/
theorem locale_always_validated (s : Store) (u : Int) (L : String) (now : Int) (s₀ : Store) :
    get_lang (set_lang s u L now) u = some (coercedLang L) ∧
    coercedLang L ∈ SUPPORTED_LANGS ∧
    dictGet? (get_user (set_lang s u L now) u) "lang" = some (J.str (coercedLang L)) ∧
    coercedLang "xx" = DEFAULT_LANG ∧
    (∀ l, get_lang s₀ u = some l → l ∈ SUPPORTED_LANGS) ∧
    ((dictGet? (get_user s₀ u) "lang" = none ∨ dictGet? (get_user s₀ u) "lang" = some J.null ∨
        ∃ x, dictGet? (get_user s₀ u) "lang" = some (J.str x) ∧
          pyLower (pyStrip x) ∉ SUPPORTED_LANGS) →
      get_lang s₀ u = some DEFAULT_LANG) := by
  refine ⟨get_lang_set_lang s u L now, ?_, get_user_set_lang s u L now, by decide, ?_, ?_⟩
  · rcases coercedLang_cases L with hc | hc <;> rw [hc] <;> simp [SUPPORTED_LANGS]
  · intro l h
    unfold get_lang at h
    cases hlo : langOrEmpty (get_user s₀ u) with
    | none => rw [hlo] at h; simp at h
    | some raw =>
      rw [hlo] at h
      have h' : (if SUPPORTED_LANGS.contains (pyLower (pyStrip raw)) = true
          then pyLower (pyStrip raw) else DEFAULT_LANG) = l := by simpa using h
      rw [← h']
      by_cases hc : SUPPORTED_LANGS.contains (pyLower (pyStrip raw))
      · rw [if_pos hc]
        simpa [SUPPORTED_LANGS] using hc
      · rw [if_neg hc]
        simp [DEFAULT_LANG, SUPPORTED_LANGS]
  · intro hcase
    unfold get_lang langOrEmpty
    rcases hcase with h | h | ⟨x, h, hx⟩
    · rw [h]
      rfl
    · rw [h]
      rfl
    · rw [h]
      have hc : SUPPORTED_LANGS.contains (pyLower (pyStrip x)) = false := by
        cases hb : SUPPORTED_LANGS.contains (pyLower (pyStrip x))
        · rfl
        · exact absurd (by simpa [SUPPORTED_LANGS] using hb) (by simpa [SUPPORTED_LANGS] using hx)
      simp only [Option.map_some']
      rw [if_neg (by simpa using hx)]


/-- Witness for C2 at a concrete input: an authorized `/approve 7 BASIC`
on the empty store. -/
theorem approve_deny_transitions_witness :
    planApprovedNow (set_purchase_status ([] : Store) 7 "BASIC" "approved" 5) 7 "BASIC" = true ∧
    ∃ Q, get_approved_plan (set_purchase_status ([] : Store) 7 "BASIC" "approved" 5) 7 = some Q ∧
      planApprovedNow (set_purchase_status ([] : Store) 7 "BASIC" "approved" 5) 7 Q = true ∧
      planPrec "BASIC" ≤ planPrec Q ∧
      ∀ R ∈ PLANS,
        planApprovedNow (set_purchase_status ([] : Store) 7 "BASIC" "approved" 5) 7 R = true →
          planPrec R ≤ planPrec Q :=
  (approve_deny_transitions ⟨"1"⟩ ([] : Store) 1 ["7", "BASIC"] 5
    (set_purchase_status ([] : Store) 7 "BASIC" "approved" 5) 7 "BASIC").1 rfl

/-- Witness for C5 at a concrete input: caller 2 is not the configured
operator 9, so both commands refuse and change nothing. -/
theorem approve_deny_guarded_witness :
    cmd_approve ⟨"9"⟩ ([] : Store) 2 ["7", "BASIC"] 5 = (([] : Store), Reply.noAccess) ∧
    cmd_deny ⟨"9"⟩ ([] : Store) 2 ["7", "BASIC"] 5 = (([] : Store), Reply.noAccess) :=
  (approve_deny_guarded ⟨"9"⟩ ([] : Store) 2 ["7", "BASIC"] 5).1 rfl

/-- Witness for C6 at a concrete input: setting the unsupported locale
`"xx"` yields the default on the following read. -/
theorem locale_always_validated_witness :
    get_lang (set_lang ([] : Store) 7 "xx" 3) 7 = some (coercedLang "xx") ∧
    coercedLang "xx" = DEFAULT_LANG :=
  ⟨(locale_always_validated ([] : Store) 7 "xx" 3 ([] : Store)).1,
    (locale_always_validated ([] : Store) 7 "xx" 3 ([] : Store)).2.2.2.1⟩

/-- Witness for C7 at a concrete input: a missing backing file reads as the
empty mapping. -/
theorem safe_read_defaults_witness :
    safe_read_json (fun _ => none) FileRead.missing = [] :=
  (safe_read_defaults (fun _ => none) FileRead.missing).1 rfl

/-- Witness for C8 at a concrete input: an absent entry reads as `"none"`. -/
theorem get_status_defaults_witness :
    get_purchase_status ([] : Store) 3 "PRO" = "none" :=
  (get_status_defaults ([] : Store) 3 "PRO").2.2.1 rfl

/-- Witness for C9 at a concrete input: reading a never-seen id returns the
empty record and leaves the empty store empty. -/
theorem get_user_pure_default_witness :
    (get_user_run ([] : Store) 3).2 = ([] : Store) ∧ (get_user_run ([] : Store) 3).1 = [] :=
  ⟨(get_user_pure_default ([] : Store) 3).1, (get_user_pure_default ([] : Store) 3).2 rfl⟩

/-- Witness for C10 at a concrete input: access granted via an approved VIP
entry is traceable to an object entry under a known plan key. -/
theorem access_needs_plan_object_witness :
    ∃ P, P ∈ PLANS ∧ ∃ p,
      dictGet? (purchasesOf (set_purchase_status ([] : Store) 7 "VIP" "approved" 2) 7) P
        = some (J.obj p) ∧
      dictGet? p "status" = some (J.str "approved") :=
  (access_needs_plan_object (set_purchase_status ([] : Store) 7 "VIP" "approved" 2) 7).1 rfl

end FABot
